import Mathlib

/-!
Verification development for the galeria ai-video-quality-tool repository.

The repository is a small Python system: a Streamlit moderation tool backed by
a BigQuery job table and GCS buckets (src/app.py, worker.py), a newer
moderation app (src/video-moderator-app) whose ledger is an append-only
BigQuery event log, and a pub/sub asset grouper
(src/video-moderator-app/src/utils/task_queue_tools.py).

This file gives a shallow embedding of the pure logic of those programs:
GCS buckets are lists of object names (or name/content-type pairs), BigQuery
tables are association lists keyed by their primary key, Python dicts are
association lists built with insert-or-overwrite semantics, and the external
collaborators (GCS copy/delete, BigQuery DML, video conversion) are assumed to
succeed, so each operation is a total function from state to state.
Timestamps are passed in explicitly as an opaque string argument.

String manipulation mirrors Python semantics on the character-list level:
s.split(sep)[0] and s.split(sep)[-1] become takeWhile/reverse-takeWhile,
pathlib stem takes the final path component and removes its last suffix,
str.isdigit is modelled on ASCII digits.
-/

/-- Characters of a string before the first occurrence of c.
Mirrors the Python expression s.split(c)[0]. -/
def takeUntil (c : Char) (s : String) : String :=
  ⟨s.data.takeWhile (· ≠ c)⟩

/-- Characters of a string after the last occurrence of c.
Mirrors the Python expression s.split(c)[-1]. -/
def afterLast (c : Char) (s : String) : String :=
  ⟨(s.data.reverse.takeWhile (· ≠ c)).reverse⟩

/-- Python str.startswith. -/
def strStartsWith (s pre : String) : Bool :=
  pre.data.isPrefixOf s.data

/-- Python str.endswith. -/
def strEndsWith (s suf : String) : Bool :=
  suf.data.isSuffixOf s.data

/-- Python slicing s[n:] (by characters). -/
def strDrop (s : String) (n : Nat) : String :=
  ⟨s.data.drop n⟩

def hasInfixAux (pat : List Char) : List Char → Bool
  | [] => pat.isPrefixOf []
  | c :: t => pat.isPrefixOf (c :: t) || hasInfixAux pat t

/-- Python membership test: pat in s. -/
def strContains (s pat : String) : Bool :=
  hasInfixAux pat.data s.data

/-- Code-point lexicographic order on character lists: the order Python uses
to compare strings and the order GCS lists object names in. -/
def lexLe : List Char → List Char → Bool
  | [], _ => true
  | _ :: _, [] => false
  | a :: as, b :: bs => if a = b then lexLe as bs else decide (a.toNat < b.toNat)

/-- Python str.endswith against a tuple of suffixes. -/
def hasAnyExt (exts : List String) (n : String) : Bool :=
  exts.any (fun e => strEndsWith n e)

/-- Index of the last occurrence of c, Python str.rfind. -/
def rfindIdx (c : Char) (cs : List Char) : Option Nat :=
  (cs.reverse.findIdx? (· = c)).map (fun j => cs.length - 1 - j)

/-- pathlib stem of a bare file name: the name with its final suffix removed.
pathlib treats a dot at position 0 or at the very end as not starting a
suffix. -/
def stemOfName (n : String) : String :=
  match rfindIdx '.' n.data with
  | none => n
  | some i => if 0 < i ∧ i + 1 < n.data.length then ⟨n.data.take i⟩ else n

/-- Final path component, os.path.basename / pathlib name. -/
def pyBasename (s : String) : String := afterLast '/' s

/-- pathlib Path(s).stem: final component without its last suffix. -/
def pyStem (s : String) : String := stemOfName (pyBasename s)

/-- Python str.isdigit restricted to ASCII: nonempty and all digits. -/
def pyIsDigit (s : String) : Bool :=
  !s.data.isEmpty && s.data.all Char.isDigit

/-- Lookup in an association list: the first binding of the key.
Association lists built with dinsert have at most one binding per key,
matching a Python dict. -/
def lookupA {α : Type} : List (String × α) → String → Option α
  | [], _ => none
  | p :: rest, k => if p.1 = k then some p.2 else lookupA rest k

/-- Key membership in an association list. -/
def memKey {α : Type} (l : List (String × α)) (k : String) : Bool :=
  (lookupA l k).isSome

/-- Python dict assignment d[k] = v: overwrite the binding in place if the key
exists, otherwise append a new binding (dicts preserve insertion order). -/
def dinsert {α : Type} : List (String × α) → String → α → List (String × α)
  | [], k, v => [(k, v)]
  | p :: rest, k, v => if p.1 = k then (k, v) :: rest else p :: dinsert rest k v

namespace App

/-! Embedding of src/app.py: the Streamlit moderation tool whose ledger is the
BigQuery table galeria-retail-api-dev.moving_images.overview, keyed by
image_id. -/

def BUCKET_NAME : String := "galeria-retail-api-dev-moving-images"

def GCS_APPROVED_FOLDER : String := "ai-video-quality-tool/output/approved/"

/-- One ledger row of the moving_images.overview table, minus its image_id
key (the association list carries the key).  Field names and meanings follow
recreate_bq_table in src/app.py. -/
structure BQRow where
  gtin : Option String
  source_gcs_path : String
  generation_status : String
  generation_attempts : Nat
  prompt : String
  video_id : Option String
  decision : Option String
  notes : Option String
  moderator_id : Option String
  log_timestamp : Option String
  last_updated : String
  last_updated_email : Option String
deriving DecidableEq, Repr

/-- First sentence of the DEFAULT_MODEL_PROMPT literal of src/app.py; the
remainder of the multi-line literal is immaterial to every claim and is
elided. -/
def DEFAULT_MODEL_PROMPT : String :=
  "A hyperrealistic, commercial e-commerce video with a minimalist, gallery aesthetic."

def get_default_prompt (source_gcs_path : String) : String :=
  if strContains source_gcs_path "products" then "PRODUCT_PROMPT_PLACEHOLDER"
  else DEFAULT_MODEL_PROMPT

/-- src/app.py get_gtin_from_path: stem of the file name, an optional
generated_ marker stripped, first underscore token, kept only if all digits.
The Python try/except around it can never fire (split always returns a
nonempty list), so the embedding is a total function. -/
def get_gtin_from_path (image_name : String) : Option String :=
  let image_stem := pyStem image_name
  let gtin_str :=
    if strStartsWith image_stem "generated_" then takeUntil '_' (strDrop image_stem 10)
    else takeUntil '_' image_stem
  if pyIsDigit gtin_str then some gtin_str else none

/-- One step of the get_gcs_input_images scan: keep image extensions, key the
dict by basename, value the full gs:// uri. -/
def inputScanStep (m : List (String × String)) (name : String) : List (String × String) :=
  if hasAnyExt [".png", ".jpg", ".jpeg", ".webp"] name then
    let image_id := pyBasename name
    if image_id ≠ "" then dinsert m image_id ("gs://" ++ BUCKET_NAME ++ "/" ++ name) else m
  else m

/-- src/app.py get_gcs_input_images over a bucket listing. -/
def get_gcs_input_images (objs : List String) : List (String × String) :=
  objs.foldl inputScanStep []

/-- One step of the get_gcs_output_videos scan: keep video extensions, key
the dict by pathlib stem, value the blob name. -/
def outputScanStep (m : List (String × String)) (name : String) : List (String × String) :=
  if hasAnyExt [".mp4", ".webp"] name then
    let video_stem := pyStem name
    if video_stem ≠ "" then dinsert m video_stem name else m
  else m

/-- src/app.py get_gcs_output_videos over the pending-folder listing. -/
def get_gcs_output_videos (objs : List String) : List (String × String) :=
  objs.foldl outputScanStep []

/-- A row freshly inserted by sync_gcs_to_bigquery, with the status decided
before the insert: APPROVAL_PENDING when a matching output video already
exists, else PENDING. -/
def mkInsertRow (now image_id source_path : String) (vid : Option String) : BQRow :=
  { gtin := get_gtin_from_path image_id
    source_gcs_path := source_path
    generation_status := if vid.isSome then "APPROVAL_PENDING" else "PENDING"
    generation_attempts := 0
    prompt := get_default_prompt source_path
    video_id := vid
    decision := none
    notes := none
    moderator_id := none
    log_timestamp := none
    last_updated := now
    last_updated_email := none }

/-- Effect of one back-fill UPDATE statement on a matching row. -/
def backfillRow (now vpath : String) (r : BQRow) : BQRow :=
  { r with generation_status := "APPROVAL_PENDING", video_id := some vpath, last_updated := now }

/-- Run every back-fill UPDATE in order; each statement rewrites every row
whose image_id matches its key. -/
def applyBackfills (now : String) (bq : List (String × BQRow)) (ups : List (String × String)) :
    List (String × BQRow) :=
  bq.map (fun p => (p.1, ups.foldl (fun r u => if p.1 = u.1 then backfillRow now u.2 r else r) p.2))

/-- The stem_to_image_id_map dict comprehension of sync_gcs_to_bigquery:
pathlib stem of each existing image_id mapped to the image_id, later entries
overwriting earlier ones. -/
def stemIndex (bq : List (String × BQRow)) : List (String × String) :=
  bq.foldl (fun m p => dinsert m (pyStem p.1) p.1) []

/-- Back-fill decision for one discovered output video (stem, path): the row
found through the stem index is selected only when its status is PENDING and
its video_id is null. -/
def backfillDecision (bq : List (String × BQRow)) (q : String × String) :
    Option (String × String) :=
  match lookupA (stemIndex bq) q.1 with
  | some image_id =>
    match lookupA bq image_id with
    | some row =>
      if row.generation_status = "PENDING" ∧ row.video_id = none then some (image_id, q.2)
      else none
    | none => none
  | none => none

/-- The back-fill selection loop of sync_gcs_to_bigquery over every
discovered output video. -/
def backfillTargets (bq : List (String × BQRow)) (gcs_output_map : List (String × String)) :
    List (String × String) :=
  gcs_output_map.filterMap (backfillDecision bq)

/-- src/app.py sync_gcs_to_bigquery: returns the counts
(rows inserted, rows back-filled) and the resulting ledger.  Inputs are the
raw listings of the input-image tier and of the video output tier, plus the
current ledger; the GCS tiers themselves are not modified by a sync. -/
def sync_gcs_to_bigquery (now : String) (inputObjs outputObjs : List String)
    (bq : List (String × BQRow)) : (Nat × Nat) × List (String × BQRow) :=
  let gcs_input_map := get_gcs_input_images inputObjs
  let gcs_output_map := get_gcs_output_videos outputObjs
  let rows_to_insert :=
    (gcs_input_map.filter (fun p => !memKey bq p.1)).map
      (fun p => (p.1, mkInsertRow now p.1 p.2 (lookupA gcs_output_map (pyStem p.1))))
  let updates_to_run := backfillTargets bq gcs_output_map
  ((rows_to_insert.length, updates_to_run.length),
    applyBackfills now bq updates_to_run ++ rows_to_insert)

/-- Status written by update_decision_in_bq: MODERATED by default, PENDING
only for a regenerate decision carrying a source video path. -/
def decisionGenStatus (decision : String) (src : Option String) : String :=
  match src with
  | some _ =>
    if decision = "approve" then "MODERATED"
    else if decision = "regenerate" ∨ decision = "remove" then
      (if decision = "regenerate" then "PENDING" else "MODERATED")
    else "MODERATED"
  | none => "MODERATED"

/-- video_id written by update_decision_in_bq: the approved-tier webp path on
approve, null otherwise. -/
def decisionVideoPath (decision : String) (src : Option String) : Option String :=
  match src with
  | some v => if decision = "approve" then some (GCS_APPROVED_FOLDER ++ pyStem v ++ ".webp") else none
  | none => none

/-- GCS side effects of update_decision_in_bq on the single bucket: approve
uploads the converted webp to the approved folder and deletes the source mp4,
regenerate/remove delete the source video, anything else touches nothing. -/
def decisionBucket (decision : String) (src : Option String) (bucket : List String) : List String :=
  match src with
  | some v =>
    if decision = "approve" then (bucket ++ [GCS_APPROVED_FOLDER ++ pyStem v ++ ".webp"]).erase v
    else if decision = "regenerate" ∨ decision = "remove" then bucket.erase v
    else bucket
  | none => bucket

/-- The row produced by the unconditional UPDATE of update_decision_in_bq. -/
def decidedRow (now moderator_id decision new_prompt new_notes gen_status : String)
    (new_video_path : Option String) (r : BQRow) : BQRow :=
  { r with
    decision := some decision
    generation_status := gen_status
    prompt := new_prompt
    notes := some new_notes
    moderator_id := some moderator_id
    log_timestamp := some now
    last_updated := now
    video_id := new_video_path
    last_updated_email := some moderator_id }

/-- Combined state touched by update_decision_in_bq. -/
structure ModState where
  bucket : List String
  rows : List (String × BQRow)
deriving DecidableEq, Repr

/-- src/app.py update_decision_in_bq: handle the GCS file per decision, then
run one UPDATE that rewrites the row matching image_id, with no read of the
row and no precondition on its current status. -/
def update_decision_in_bq (now moderator_id image_id decision new_prompt new_notes : String)
    (source_video_path : Option String) (s : ModState) : ModState :=
  { bucket := decisionBucket decision source_video_path s.bucket
    rows := s.rows.map (fun p =>
      if p.1 = image_id then
        (p.1, decidedRow now moderator_id decision new_prompt new_notes
          (decisionGenStatus decision source_video_path)
          (decisionVideoPath decision source_video_path) p.2)
      else p) }

end App

namespace Worker

/-! Embedding of worker.py: the polling generation worker over the same
moving_images.overview table as src/app.py. -/

/-- worker.py update_job_status: one UPDATE that sets generation_status,
video_id and last_updated on every row matching image_id.  The SET clause
names no other column; in particular generation_attempts is untouched. -/
def update_job_status (now : String) (bq : List (String × App.BQRow))
    (image_id status : String) (video_path : Option String) : List (String × App.BQRow) :=
  bq.map (fun p =>
    if p.1 = image_id then
      (p.1, { p.2 with generation_status := status, video_id := video_path, last_updated := now })
    else p)

/-- The claim transition of worker.py main: update_job_status with status
GENERATING and the default video_path of None, issued before generate_video
is called. -/
def claimPendingJob (now : String) (bq : List (String × App.BQRow)) (image_id : String) :
    List (String × App.BQRow) :=
  update_job_status now bq image_id "GENERATING" none

end Worker

def INPUT_ASSETS_BUCKET_NAME : String := "galeria-veo3-input-assets-galeria-retail-api-dev"

def PROCESSED_ASSETS_BUCKET_NAME : String := "galeria-veo3-processed-assets-galeria-retail-api-dev"

def APPROVED_ASSETS_BUCKET_NAME : String := "galeria-veo3-approved-assets-galeria-retail-api-dev"

namespace TQ

/-! Embedding of src/video-moderator-app/src/utils/task_queue_tools.py:
get_new_input_assets, the asset grouper. -/

/-- The payload yielded per GTIN group. -/
structure AssetGroup where
  gtin : String
  category : String
  assets : List String
deriving DecidableEq, Repr

/-- gs:// uri formed for a kept blob. -/
def tqUri (n : String) : String := "gs://" ++ INPUT_ASSETS_BUCKET_NAME ++ "/" ++ n

/-- blob.name.split('/')[-1].split('_')[0]: the raw first underscore token of
the filename.  Python split never fails, so every kept blob gets a gtin. -/
def tqGtin (n : String) : String := takeUntil '_' (afterLast '/' n)

/-- blob.name.split('/')[0]: top-level folder as the category. -/
def tqCat (n : String) : String := takeUntil '/' n

/-- The two skip conditions of the scan: directory markers and non-image
extensions. -/
def keepBlob (n : String) : Bool :=
  !(strEndsWith n "/") && hasAnyExt [".webp", ".png", ".jpg", ".jpeg"] n

/-- The generator loop of get_new_input_assets: a single forward pass holding
the current group, emitting it the moment a differing gtin is seen, and
emitting the final group at the end of the listing. -/
def groupLoop : Option AssetGroup → List String → List AssetGroup
  | cur, [] =>
    match cur with
    | some g => [g]
    | none => []
  | cur, n :: rest =>
    if keepBlob n then
      match cur with
      | some grp =>
        if tqGtin n = grp.gtin then
          groupLoop (some { grp with assets := grp.assets ++ [tqUri n] }) rest
        else
          grp :: groupLoop (some ⟨tqGtin n, tqCat n, [tqUri n]⟩) rest
      | none => groupLoop (some ⟨tqGtin n, tqCat n, [tqUri n]⟩) rest
    else groupLoop cur rest

/-- task_queue_tools.get_new_input_assets over a bucket listing. -/
def get_new_input_assets (blobs : List String) : List AssetGroup :=
  groupLoop none blobs

/-- Specification-side chunking: maximal runs of consecutive keys sharing the
gtin of the run head.  Stated from the spec sentence that two objects share a
group iff their ids are equal and they are contiguous in the stream. -/
def chunkByGtin : List String → List (List String)
  | [] => []
  | n :: rest =>
    (n :: rest.takeWhile (fun m => tqGtin m = tqGtin n)) ::
      chunkByGtin (rest.dropWhile (fun m => tqGtin m = tqGtin n))
termination_by l => l.length
decreasing_by
  exact Nat.lt_succ_of_le (List.Sublist.length_le (List.dropWhile_sublist _))

/-- The group an emitted chunk corresponds to. -/
def mkGroupOfChunk (run : List String) : AssetGroup :=
  ⟨tqGtin (run.headD ""), tqCat (run.headD ""), run.map tqUri⟩

end TQ

namespace VApp

/-! Embedding of src/video-moderator-app/src/app.py: decision-time asset
enumeration for approve/reject. -/

/-- A GCS blob as the app sees it: name plus content type (empty string for a
missing content type, Python None). -/
structure GBlob where
  name : String
  content_type : String
deriving DecidableEq, Repr

/-- Comparison used to sort blobs by name (Python sort key=lambda x: x.name,
code-point lexicographic). -/
def nameLeB (a b : GBlob) : Bool := lexLe a.name.data b.name.data

def insertByName (x : GBlob) : List GBlob → List GBlob
  | [] => [x]
  | y :: t => if nameLeB x y then x :: y :: t else y :: insertByName x t

/-- Sort by blob name, the images.sort call of get_gtin_image_blobs. -/
def sortByName (l : List GBlob) : List GBlob := l.foldr insertByName []

/-- The selection of get_gtin_image_blobs: names under the gtin folder whose
content type is present and starts with image/. -/
def imageBlobFilter (gtin : String) (b : GBlob) : Bool :=
  strStartsWith b.name (gtin ++ "/") && !(b.content_type = "") &&
    strStartsWith b.content_type "image/"

/-- video-moderator-app get_gtin_image_blobs: list the bucket under the gtin
prefix, filter to image content types, and sort alphabetically by name (the
source comments that the sort ensures consistent front/back ordering). -/
def get_gtin_image_blobs (bucket : List GBlob) (gtin : String) : List GBlob :=
  sortByName (bucket.filter (imageBlobFilter gtin))

/-- The order in which approve_video and reject_video of the moderator app
walk the reference assets of a gtin at decision time. -/
def approveImageOrder (processed : List GBlob) (gtin : String) : List String :=
  (get_gtin_image_blobs processed gtin).map GBlob.name

end VApp

namespace SU

/-! Embedding of src/video-moderator-app/src/utils/storage_utilities.py:
reject_video, over a global store of gs:// uris and the append-only BigQuery
event log. -/

/-- One appended event row of the veo3 ingestion events table, as built by
reject_video. -/
structure VLogRow where
  gtin : String
  status : String
  notes : Option String
  category : String
  reference_image_gcs_uris : List String
  moderator_id : String
  timestamp : String
deriving DecidableEq, Repr

/-- Global state: existing gs:// uris across buckets, plus the event log. -/
structure SUState where
  store : List String
  events : List VLogRow
deriving DecidableEq, Repr

/-- Destination uri in the input bucket: category folder plus basename, as in
the reject loop destination f-string. -/
def destInputUri (category u : String) : String :=
  "gs://" ++ INPUT_ASSETS_BUCKET_NAME ++ "/" ++ category ++ "/" ++ afterLast '/' u

/-- storage_utilities.fix_reference_image_uris: rewrite uris whose first
slash-component mentions input-assets.  For a gs:// uri that component is
always the literal gs: so the test never fires; the embedding keeps the test
as written. -/
def fix_reference_image_uris (gtin : String) (uris : List String) : List String :=
  uris.map (fun u =>
    if strContains (takeUntil '/' u) "input-assets" then
      "gs://" ++ PROCESSED_ASSETS_BUCKET_NAME ++ "/" ++ gtin ++ "/" ++ afterLast '/' u
    else u)

/-- The reference-return loop of reject_video: for each uri in order, copy it
into the input bucket under category/basename, then delete the source. -/
def moveRefsToInput (category : String) : List String → List String → List String
  | store, [] => store
  | store, u :: rest =>
    moveRefsToInput category ((store ++ [destInputUri category u]).erase u) rest

/-- storage_utilities.reject_video: return every reference image to the input
tier, delete the generated video, and append one VIDEO_REJECTED event to the
log.  No existing table row is read or mutated. -/
def reject_video (now gtin : String) (notes : Option String) (moderator video_gcs_uri category : String)
    (reference_image_gcs_uris : List String) (s : SUState) : SUState :=
  let fixed := fix_reference_image_uris gtin reference_image_gcs_uris
  { store := (moveRefsToInput category s.store fixed).erase video_gcs_uri
    events := s.events ++ [⟨gtin, "VIDEO_REJECTED", notes, category, fixed, moderator, now⟩] }

end SU

/-- A sample PENDING ledger row used by concrete counterexamples and
witnesses. -/
def pendingRow : App.BQRow :=
  { gtin := some "100"
    source_gcs_path := "gs://galeria-retail-api-dev-moving-images/input_images_filterded_sorted/clothes/100_01.webp"
    generation_status := "PENDING"
    generation_attempts := 0
    prompt := "p"
    video_id := none
    decision := none
    notes := none
    moderator_id := none
    log_timestamp := none
    last_updated := "t0"
    last_updated_email := none }

/-- A sample MODERATED ledger row used by concrete witnesses. -/
def moderatedRow : App.BQRow :=
  { pendingRow with generation_status := "MODERATED", decision := some "remove" }

/-- The input tier listing of spec scenario 1: two images of product 100. -/
def scenarioInputObjs : List String :=
  ["input_images_filterded_sorted/clothes/100_01.webp",
   "input_images_filterded_sorted/clothes/100_02.webp"]

/-- The last image_id in the ledger whose pathlib stem is s; characterizes
what the stem_to_image_id_map comprehension resolves s to. -/
def lastKeyStem (bq : List (String × App.BQRow)) (s : String) : Option String :=
  (bq.reverse.find? (fun p => decide (pyStem p.1 = s))).map Prod.fst

/-- Name order on blobs as a relation, for sortedness statements. -/
def nameRel (a b : VApp.GBlob) : Prop := VApp.nameLeB a b = true

/-! ## Generic lemmas about the dict embedding -/

theorem lookupA_append {α : Type} (l₁ l₂ : List (String × α)) (k : String) :
    lookupA (l₁ ++ l₂) k = (lookupA l₁ k).or (lookupA l₂ k) := by
  induction l₁ with
  | nil => simp [lookupA]
  | cons p rest ih =>
    by_cases h : p.1 = k <;> simp [lookupA, h, ih]

theorem memKey_append {α : Type} (l₁ l₂ : List (String × α)) (k : String) :
    memKey (l₁ ++ l₂) k = (memKey l₁ k || memKey l₂ k) := by
  simp only [memKey, lookupA_append]
  cases lookupA l₁ k <;> simp

theorem lookupA_eq_some_mem {α : Type} {l : List (String × α)} {k : String} {v : α}
    (h : lookupA l k = some v) : (k, v) ∈ l := by
  induction l with
  | nil => simp [lookupA] at h
  | cons p rest ih =>
    rw [lookupA] at h
    by_cases hp : p.1 = k
    · rw [if_pos hp] at h
      have hv : p.2 = v := by simpa using h
      have hpv : p = (k, v) := by
        cases p
        simp_all
      rw [← hpv]
      exact List.mem_cons_self _ _
    · rw [if_neg hp] at h
      exact List.mem_cons_of_mem _ (ih h)

theorem memKey_iff_mem_keys {α : Type} (l : List (String × α)) (k : String) :
    memKey l k = true ↔ k ∈ l.map Prod.fst := by
  induction l with
  | nil => simp [memKey, lookupA]
  | cons p rest ih =>
    by_cases hp : p.1 = k
    · simp [memKey, lookupA, hp]
    · have hp2 : ¬ k = p.1 := fun hc => hp hc.symm
      simp only [List.map_cons, List.mem_cons, memKey, lookupA, if_neg hp]
      simp only [memKey] at ih
      constructor
      · intro hmem
        exact Or.inr (ih.mp hmem)
      · rintro (hc | hmem)
        · exact absurd hc hp2
        · exact ih.mpr hmem

theorem memKey_of_mem {α : Type} {l : List (String × α)} {p : String × α}
    (h : p ∈ l) : memKey l p.1 = true :=
  (memKey_iff_mem_keys l p.1).mpr (List.mem_map_of_mem Prod.fst h)

theorem lookupA_isSome_of_memKey {α : Type} {l : List (String × α)} {k : String}
    (h : memKey l k = true) : ∃ v, lookupA l k = some v := by
  unfold memKey at h
  cases hv : lookupA l k with
  | none => rw [hv] at h; simp at h
  | some v => exact ⟨v, rfl⟩

theorem lookupA_map_keyed {β γ : Type} (g : String → β → γ) (l : List (String × β)) (k : String) :
    lookupA (l.map (fun p => (p.1, g p.1 p.2))) k = (lookupA l k).map (g k) := by
  induction l with
  | nil => simp [lookupA]
  | cons p rest ih =>
    by_cases hp : p.1 = k <;> simp [lookupA, hp, ih]

theorem keys_map_keyed {β γ : Type} (g : String → β → γ) (l : List (String × β)) :
    (l.map (fun p => (p.1, g p.1 p.2))).map Prod.fst = l.map Prod.fst := by
  induction l with
  | nil => rfl
  | cons p rest ih => simp [ih]

theorem lookupA_rowUpdate {β : Type} (f : β → β) (k : String) (l : List (String × β)) (kq : String) :
    lookupA (l.map (fun p => if p.1 = k then (p.1, f p.2) else p)) kq =
      if kq = k then (lookupA l kq).map f else lookupA l kq := by
  induction l with
  | nil => by_cases h : kq = k <;> simp [lookupA, h]
  | cons p rest ih =>
    simp only [List.map_cons]
    by_cases h3 : kq = k
    · subst h3
      by_cases h1 : p.1 = kq <;> simp [lookupA, h1, ih]
    · by_cases h1 : p.1 = k
      · have h2 : ¬ p.1 = kq := fun hc => h3 (hc.symm.trans h1)
        have h4 : ¬ k = kq := fun hc => h3 hc.symm
        simp [lookupA, h1, h2, h3, h4, ih]
      · by_cases h2 : p.1 = kq <;> simp [lookupA, h1, h2, h3, ih]

theorem dinsert_lookupA {α : Type} (m : List (String × α)) (k : String) (v : α) (kq : String) :
    lookupA (dinsert m k v) kq = if kq = k then some v else lookupA m kq := by
  induction m with
  | nil =>
    by_cases h : kq = k
    · subst h; simp [dinsert, lookupA]
    · have h2 : ¬ k = kq := fun hc => h hc.symm
      simp [dinsert, lookupA, h, h2]
  | cons p rest ih =>
    by_cases h3 : kq = k
    · subst h3
      by_cases h1 : p.1 = kq <;> simp [dinsert, lookupA, h1, ih]
    · by_cases h1 : p.1 = k
      · have h2 : ¬ k = kq := fun hc => h3 hc.symm
        have hne : ¬ p.1 = kq := fun hc => h3 (hc.symm.trans h1)
        simp [dinsert, lookupA, h1, h2, h3, hne]
      · by_cases h2 : p.1 = kq <;> simp [dinsert, lookupA, h1, h2, h3, ih]

theorem mem_keys_dinsert {α : Type} (m : List (String × α)) (k : String) (v : α) (kq : String) :
    kq ∈ (dinsert m k v).map Prod.fst ↔ kq ∈ m.map Prod.fst ∨ kq = k := by
  induction m with
  | nil => simp [dinsert, eq_comm]
  | cons p rest ih =>
    by_cases h1 : p.1 = k
    · subst h1
      have hd : dinsert (p :: rest) p.1 v = (p.1, v) :: rest := by simp [dinsert]
      rw [hd]
      simp only [List.map_cons, List.mem_cons]
      tauto
    · simp only [dinsert, if_neg h1, List.map_cons, List.mem_cons, ih]
      tauto

theorem dinsert_keys_nodup {α : Type} (m : List (String × α)) (k : String) (v : α)
    (h : (m.map Prod.fst).Nodup) : ((dinsert m k v).map Prod.fst).Nodup := by
  induction m with
  | nil => simp [dinsert]
  | cons p rest ih =>
    simp only [List.map_cons, List.nodup_cons] at h
    by_cases h1 : p.1 = k
    · subst h1
      have hd : dinsert (p :: rest) p.1 v = (p.1, v) :: rest := by simp [dinsert]
      rw [hd]
      simp only [List.map_cons, List.nodup_cons]
      exact ⟨h.1, h.2⟩
    · have hrest := ih h.2
      simp only [dinsert, if_neg h1, List.map_cons, List.nodup_cons]
      refine ⟨?_, hrest⟩
      intro hc
      rcases (mem_keys_dinsert rest k v p.1).mp hc with hm | he
      · exact h.1 hm
      · exact h1 he

/-! ## Lemmas about the reconciliation engine of src/app.py -/

theorem sync_snd_eq (now : String) (i o : List String) (bq : List (String × App.BQRow)) :
    (App.sync_gcs_to_bigquery now i o bq).2 =
      App.applyBackfills now bq (App.backfillTargets bq (App.get_gcs_output_videos o)) ++
        ((App.get_gcs_input_images i).filter (fun p => !memKey bq p.1)).map
          (fun p => (p.1, App.mkInsertRow now p.1 p.2
            (lookupA (App.get_gcs_output_videos o) (pyStem p.1)))) := rfl

theorem sync_fst_eq (now : String) (i o : List String) (bq : List (String × App.BQRow)) :
    (App.sync_gcs_to_bigquery now i o bq).1 =
      ((((App.get_gcs_input_images i).filter (fun p => !memKey bq p.1)).length),
        (App.backfillTargets bq (App.get_gcs_output_videos o)).length) := by
  unfold App.sync_gcs_to_bigquery
  simp

theorem applyBackfills_lookupA (now : String) (bq : List (String × App.BQRow))
    (ups : List (String × String)) (k : String) :
    lookupA (App.applyBackfills now bq ups) k =
      (lookupA bq k).map
        (fun r => ups.foldl (fun r u => if k = u.1 then App.backfillRow now u.2 r else r) r) := by
  unfold App.applyBackfills
  exact lookupA_map_keyed
    (fun a b => ups.foldl (fun r u => if a = u.1 then App.backfillRow now u.2 r else r) b) bq k

theorem applyBackfills_memKey (now : String) (bq : List (String × App.BQRow))
    (ups : List (String × String)) (k : String) :
    memKey (App.applyBackfills now bq ups) k = memKey bq k := by
  simp only [memKey, applyBackfills_lookupA]
  cases lookupA bq k <;> simp

theorem backfill_foldl_id (now : String) (k : String) (ups : List (String × String))
    (r : App.BQRow) (h : ∀ u ∈ ups, u.1 ≠ k) :
    ups.foldl (fun r u => if k = u.1 then App.backfillRow now u.2 r else r) r = r := by
  induction ups generalizing r with
  | nil => rfl
  | cons u rest ih =>
    have hu : u.1 ≠ k := h u (List.mem_cons_self _ _)
    have hk : ¬ k = u.1 := fun hc => hu hc.symm
    simp only [List.foldl_cons, if_neg hk]
    exact ih r (fun v hv => h v (List.mem_cons_of_mem _ hv))

theorem backfill_foldl_keeps_ap (now : String) (k : String) (ups : List (String × String))
    (r : App.BQRow) (h : r.generation_status = "APPROVAL_PENDING") :
    (ups.foldl (fun r u => if k = u.1 then App.backfillRow now u.2 r else r) r).generation_status =
      "APPROVAL_PENDING" := by
  induction ups generalizing r with
  | nil => exact h
  | cons u rest ih =>
    simp only [List.foldl_cons]
    by_cases hk : k = u.1
    · rw [if_pos hk]
      exact ih (App.backfillRow now u.2 r) rfl
    · rw [if_neg hk]
      exact ih r h

theorem backfill_foldl_ap_of_mem (now : String) (k : String) (ups : List (String × String))
    (r : App.BQRow) (h : ∃ u ∈ ups, u.1 = k) :
    (ups.foldl (fun r u => if k = u.1 then App.backfillRow now u.2 r else r) r).generation_status =
      "APPROVAL_PENDING" := by
  induction ups generalizing r with
  | nil => simp at h
  | cons u rest ih =>
    simp only [List.foldl_cons]
    by_cases hk : k = u.1
    · rw [if_pos hk]
      exact backfill_foldl_keeps_ap now k rest (App.backfillRow now u.2 r) rfl
    · rw [if_neg hk]
      obtain ⟨w, hw, hwk⟩ := h
      rcases List.mem_cons.mp hw with hwu | hw2
      · exact absurd (hwu ▸ hwk).symm hk
      · exact ih r ⟨w, hw2, hwk⟩

theorem stemIndex_lookup (bq : List (String × App.BQRow)) (s : String) :
    lookupA (App.stemIndex bq) s = lastKeyStem bq s := by
  induction bq using List.reverseRecOn with
  | nil => rfl
  | append_singleton l p ih =>
    unfold App.stemIndex at ih ⊢
    rw [List.foldl_append]
    simp only [List.foldl_cons, List.foldl_nil]
    rw [dinsert_lookupA]
    unfold lastKeyStem
    rw [List.reverse_append]
    simp only [List.reverse_cons, List.reverse_nil, List.nil_append, List.singleton_append,
      List.find?_cons]
    by_cases hs : pyStem p.1 = s
    · subst hs
      simp
    · have hs2 : ¬ s = pyStem p.1 := fun hc => hs hc.symm
      simp only [if_neg hs2]
      rw [show (decide (pyStem p.1 = s)) = false by simp [hs]]
      exact ih

theorem find?_keyed {β γ : Type} (g : String → β → γ) (P : String → Bool)
    (l : List (String × β)) :
    (l.map (fun p => (p.1, g p.1 p.2))).find? (fun p => P p.1) =
      (l.find? (fun p => P p.1)).map (fun p => (p.1, g p.1 p.2)) := by
  induction l with
  | nil => rfl
  | cons p rest ih =>
    simp only [List.map_cons, List.find?_cons]
    cases hp : P p.1 <;> simp [hp, ih]

theorem lookupA_eq_none_of_memKey_false {α : Type} {l : List (String × α)} {k : String}
    (h : memKey l k = false) : lookupA l k = none := by
  unfold memKey at h
  cases hl : lookupA l k with
  | none => rfl
  | some v => rw [hl] at h; simp at h

theorem foldl_inputScanStep_keys_nodup (objs : List String) (m : List (String × String))
    (h : (m.map Prod.fst).Nodup) : ((objs.foldl App.inputScanStep m).map Prod.fst).Nodup := by
  induction objs generalizing m with
  | nil => simpa using h
  | cons n rest ih =>
    simp only [List.foldl_cons]
    apply ih
    by_cases he : hasAnyExt [".png", ".jpg", ".jpeg", ".webp"] n = true
    · simp only [App.inputScanStep, if_pos he]
      by_cases hb : pyBasename n ≠ ""
      · simp only [if_pos hb]
        exact dinsert_keys_nodup m _ _ h
      · simp only [if_neg hb]
        exact h
    · simp only [App.inputScanStep, if_neg he]
      exact h

theorem input_images_keys_nodup (objs : List String) :
    ((App.get_gcs_input_images objs).map Prod.fst).Nodup :=
  foldl_inputScanStep_keys_nodup objs [] (by simp)

/-- After one sync over a given pair of listings, every listed input image
has a ledger row, so a second scan of the same listings finds nothing new. -/
theorem sync_no_new_after (now1 : String) (i o : List String)
    (bq : List (String × App.BQRow)) :
    (App.get_gcs_input_images i).filter
      (fun p => !memKey (App.sync_gcs_to_bigquery now1 i o bq).2 p.1) = [] := by
  apply List.filter_eq_nil_iff.mpr
  intro p hp
  rw [sync_snd_eq, memKey_append, applyBackfills_memKey]
  by_cases hm : memKey bq p.1 = true
  · simp [hm]
  · have hm2 : memKey bq p.1 = false := by simpa using hm
    have hfil : p ∈ (App.get_gcs_input_images i).filter (fun p => !memKey bq p.1) :=
      List.mem_filter.mpr ⟨hp, by simp [hm2]⟩
    have hmm := memKey_of_mem (List.mem_map_of_mem
      (fun p => (p.1, App.mkInsertRow now1 p.1 p.2
        (lookupA (App.get_gcs_output_videos o) (pyStem p.1)))) hfil)
    simp [hmm]

theorem find?_pred {α : Type} {p : α → Bool} {l : List α} {a : α}
    (h : l.find? p = some a) : p a = true := List.find?_some h

theorem backfillDecision_spec (bq : List (String × App.BQRow)) (q : String × String)
    (imgId : String) (r : App.BQRow)
    (h1 : lookupA (App.stemIndex bq) q.1 = some imgId)
    (h2 : lookupA bq imgId = some r) :
    App.backfillDecision bq q =
      if r.generation_status = "PENDING" ∧ r.video_id = none then some (imgId, q.2)
      else none := by
  unfold App.backfillDecision
  simp only [h1, h2]

/-- After one sync over a given pair of listings, no row qualifies for
back-fill on a second pass over the same listings: freshly inserted rows with
a matching video were inserted as APPROVAL_PENDING, and every previously
existing PENDING row with a matching video was already back-filled. -/
theorem sync_no_backfill_after (now1 : String) (i o : List String)
    (bq : List (String × App.BQRow)) :
    App.backfillTargets (App.sync_gcs_to_bigquery now1 i o bq).2
      (App.get_gcs_output_videos o) = [] := by
  apply List.filterMap_eq_nil_iff.mpr
  intro q hq
  rw [sync_snd_eq]
  set om := App.get_gcs_output_videos o with hom
  set bfq := App.backfillTargets bq om with hbfq
  set A := App.applyBackfills now1 bq bfq with hA
  set ins := ((App.get_gcs_input_images i).filter (fun p => !memKey bq p.1)).map
      (fun p => (p.1, App.mkInsertRow now1 p.1 p.2 (lookupA om (pyStem p.1)))) with hins
  unfold App.backfillDecision
  split
  case h_2 => rfl
  case h_1 image_id heq =>
  split
  case h_2 => rfl
  case h_1 row hrow =>
  split
  case isFalse => rfl
  case isTrue hcond =>
  exfalso
  rw [stemIndex_lookup] at heq
  unfold lastKeyStem at heq
  rw [List.reverse_append, List.find?_append] at heq
  have hAfind : A.reverse.find? (fun p => decide (pyStem p.1 = q.1)) =
      (bq.reverse.find? (fun p => decide (pyStem p.1 = q.1))).map
        (fun p => (p.1, bfq.foldl
          (fun r u => if p.1 = u.1 then App.backfillRow now1 u.2 r else r) p.2)) := by
    rw [hA]
    unfold App.applyBackfills
    rw [← List.map_reverse]
    exact find?_keyed
      (fun a b => bfq.foldl (fun r u => if a = u.1 then App.backfillRow now1 u.2 r else r) b)
      (fun a => decide (pyStem a = q.1)) bq.reverse
  cases hinsf : ins.reverse.find? (fun p => decide (pyStem p.1 = q.1)) with
  | some pr =>
    rw [hinsf] at heq
    have hid : image_id = pr.1 := by simpa [Option.or] using heq.symm
    have hmem : pr ∈ ins := List.mem_reverse.mp (List.mem_of_find?_eq_some hinsf)
    have hpred : pyStem pr.1 = q.1 := by
      have h0 := find?_pred hinsf
      simpa using h0
    obtain ⟨p0, hp0, hpr⟩ := List.mem_map.mp hmem
    have hpr1 : pr.1 = p0.1 := by rw [← hpr]
    have hp0f := List.mem_filter.mp hp0
    have hnm : memKey bq p0.1 = false := by simpa using hp0f.2
    have hAnone : lookupA A pr.1 = none := by
      apply lookupA_eq_none_of_memKey_false
      rw [hA, applyBackfills_memKey, hpr1]
      exact hnm
    obtain ⟨src, hsrc⟩ := lookupA_isSome_of_memKey (memKey_of_mem hp0)
    have hlkins : lookupA ins pr.1 =
        some (App.mkInsertRow now1 p0.1 src (lookupA om (pyStem p0.1))) := by
      rw [hins, hpr1,
        lookupA_map_keyed (fun a b => App.mkInsertRow now1 a b (lookupA om (pyStem a))) _ p0.1,
        hsrc]
      rfl
    have hrow2 : lookupA (A ++ ins) image_id =
        some (App.mkInsertRow now1 p0.1 src (lookupA om (pyStem p0.1))) := by
      rw [hid, lookupA_append, hAnone, hlkins]
      rfl
    rw [hrow2] at hrow
    have hroweq : row = App.mkInsertRow now1 p0.1 src (lookupA om (pyStem p0.1)) := by
      simpa using hrow.symm
    obtain ⟨w, hw⟩ := lookupA_isSome_of_memKey (memKey_of_mem hq)
    have hstem : pyStem p0.1 = q.1 := by rw [← hpr1]; exact hpred
    have hstat : row.generation_status = "APPROVAL_PENDING" := by
      rw [hroweq]
      unfold App.mkInsertRow
      rw [hstem, hw]
      rfl
    rw [hstat] at hcond
    exact absurd hcond.1 (by decide)
  | none =>
    rw [hinsf] at heq
    rw [hAfind] at heq
    cases hbqf : bq.reverse.find? (fun p => decide (pyStem p.1 = q.1)) with
    | none => rw [hbqf] at heq; simp [Option.or] at heq
    | some pr0 =>
      rw [hbqf] at heq
      have hid : image_id = pr0.1 := by simpa [Option.or] using heq.symm
      have hmem0 : pr0 ∈ bq := List.mem_reverse.mp (List.mem_of_find?_eq_some hbqf)
      have hpred0 : pyStem pr0.1 = q.1 := by
        have h0 := find?_pred hbqf
        simpa using h0
      have hmk : memKey bq image_id = true := by
        rw [hid]; exact memKey_of_mem hmem0
      obtain ⟨row0, hrow0⟩ := lookupA_isSome_of_memKey hmk
      have hAl : lookupA A image_id = some (bfq.foldl
          (fun r u => if image_id = u.1 then App.backfillRow now1 u.2 r else r) row0) := by
        rw [hA, applyBackfills_lookupA, hrow0]
        rfl
      have hrow2 : lookupA (A ++ ins) image_id = some (bfq.foldl
          (fun r u => if image_id = u.1 then App.backfillRow now1 u.2 r else r) row0) := by
        rw [lookupA_append, hAl]
        rfl
      rw [hrow2] at hrow
      have hroweq : row = bfq.foldl
          (fun r u => if image_id = u.1 then App.backfillRow now1 u.2 r else r) row0 := by
        simpa using hrow.symm
      by_cases hany : ∃ u ∈ bfq, u.1 = image_id
      · have hstat : row.generation_status = "APPROVAL_PENDING" := by
          rw [hroweq]
          exact backfill_foldl_ap_of_mem now1 image_id bfq row0 hany
        rw [hstat] at hcond
        exact absurd hcond.1 (by decide)
      · have hnone : ∀ u ∈ bfq, u.1 ≠ image_id := by
          intro u hu hc
          exact hany ⟨u, hu, hc⟩
        have hre : row = row0 := by
          rw [hroweq]
          exact backfill_foldl_id now1 image_id bfq row0 hnone
        have hsi : lookupA (App.stemIndex bq) q.1 = some image_id := by
          rw [stemIndex_lookup]
          unfold lastKeyStem
          rw [hbqf]
          simp only [Option.map_some']
          rw [hid]
        have hdec : App.backfillDecision bq q = some (image_id, q.2) := by
          rw [backfillDecision_spec bq q image_id row0 hsi hrow0]
          rw [if_pos (hre ▸ hcond)]
        have hmemq : (image_id, q.2) ∈ bfq := by
          rw [hbfq]
          unfold App.backfillTargets
          exact List.mem_filterMap.mpr ⟨q, hq, hdec⟩
        exact hany ⟨(image_id, q.2), hmemq, rfl⟩

/-- C2: running reconcile twice with no intervening storage change returns
(0, 0) from the second run: no row inserted and no row back-filled. -/
theorem c2_reconcile_second_run_zero (now1 now2 : String) (i o : List String)
    (bq : List (String × App.BQRow)) :
    (App.sync_gcs_to_bigquery now2 i o (App.sync_gcs_to_bigquery now1 i o bq).2).1 = (0, 0) := by
  rw [sync_fst_eq, sync_no_new_after now1 i o bq, sync_no_backfill_after now1 i o bq]
  rfl

/-- C5: a reconciliation pass leaves every row that is not both PENDING and
video-less completely unchanged; in particular GENERATING, APPROVAL_PENDING
(the COMPLETED state of the spec) and MODERATED rows are never touched, and
the back-fill step rewrites only PENDING rows with a null video_id. -/
theorem c5_reconcile_preserves_claimed_rows (now : String) (i o : List String)
    (bq : List (String × App.BQRow)) (image_id : String) (row : App.BQRow)
    (h1 : lookupA bq image_id = some row)
    (h2 : ¬(row.generation_status = "PENDING" ∧ row.video_id = none)) :
    lookupA (App.sync_gcs_to_bigquery now i o bq).2 image_id = some row := by
  rw [sync_snd_eq, lookupA_append, applyBackfills_lookupA, h1]
  have hno : ∀ u ∈ App.backfillTargets bq (App.get_gcs_output_videos o), u.1 ≠ image_id := by
    intro u hu hcontra
    obtain ⟨q, hq, hfq⟩ := List.mem_filterMap.mp hu
    unfold App.backfillDecision at hfq
    split at hfq
    case h_2 => simp at hfq
    case h_1 imgId hs =>
    split at hfq
    case h_2 => simp at hfq
    case h_1 r2 hr =>
    split at hfq
    case isFalse => simp at hfq
    case isTrue hcond =>
    have hu1 : u = (imgId, q.2) := by simpa using hfq.symm
    rw [hu1] at hcontra
    simp at hcontra
    rw [hcontra] at hr
    rw [h1] at hr
    have hr2 : r2 = row := by simpa using hr.symm
    rw [hr2] at hcond
    exact h2 hcond
  have hfold : (App.backfillTargets bq (App.get_gcs_output_videos o)).foldl
      (fun r u => if image_id = u.1 then App.backfillRow now u.2 r else r) row = row :=
    backfill_foldl_id now image_id _ row hno
  simp [hfold]

/-- Witness for C5 at a concrete MODERATED row. -/
theorem c5_reconcile_preserves_claimed_rows_witness :
    (lookupA [("a.webp", moderatedRow)] "a.webp" = some moderatedRow) ∧
      ¬(moderatedRow.generation_status = "PENDING" ∧ moderatedRow.video_id = none) ∧
      lookupA (App.sync_gcs_to_bigquery "t1" [] [] [("a.webp", moderatedRow)]).2 "a.webp" =
        some moderatedRow :=
  ⟨by decide, by decide,
    c5_reconcile_preserves_claimed_rows "t1" [] [] [("a.webp", moderatedRow)] "a.webp"
      moderatedRow (by decide) (by decide)⟩

/-- C1 counterexample: on spec scenario 1 (input tier holds
clothes/100_01.webp and clothes/100_02.webp, output tier and ledger empty),
reconcile inserts two rows carrying gtin 100, not the single
product-keyed row the claim asserts: the ledger of src/app.py is keyed by
image_id, one row per image, with no reference_uris field. -/
theorem c1_one_row_per_product_counterexample :
    (((App.sync_gcs_to_bigquery "t0" scenarioInputObjs [] []).2.filter
        (fun p => decide (p.2.gtin = some "100"))).length = 2) ∧
      ¬(((App.sync_gcs_to_bigquery "t0" scenarioInputObjs [] []).2.filter
        (fun p => decide (p.2.gtin = some "100"))).length = 1) := by
  refine ⟨by decide, by decide⟩

/-- C1 (amended): the Status Ledger of src/app.py keeps at most one row per
image_id, not per product: on scenario 1 reconcile returns (2, 0) and inserts
one PENDING row per image, each row carrying gtin 100 and its own single
source_gcs_path; and any sync preserves uniqueness of the image_id key. -/
theorem c1_rows_keyed_by_image :
    ((App.sync_gcs_to_bigquery "t0" scenarioInputObjs [] []).1 = (2, 0)
      ∧ (App.sync_gcs_to_bigquery "t0" scenarioInputObjs [] []).2.map
          (fun p => (p.1, p.2.gtin, p.2.generation_status, p.2.source_gcs_path, p.2.video_id))
        = [("100_01.webp", some "100", "PENDING",
            "gs://galeria-retail-api-dev-moving-images/input_images_filterded_sorted/clothes/100_01.webp",
            none),
           ("100_02.webp", some "100", "PENDING",
            "gs://galeria-retail-api-dev-moving-images/input_images_filterded_sorted/clothes/100_02.webp",
            none)])
    ∧ (∀ now i o bq, (bq.map Prod.fst).Nodup →
        ((App.sync_gcs_to_bigquery now i o bq).2.map Prod.fst).Nodup) := by
  refine ⟨⟨by decide, by decide⟩, ?_⟩
  intro now i o bq h
  rw [sync_snd_eq, List.map_append, List.nodup_append]
  have hk1 : (App.applyBackfills now bq
      (App.backfillTargets bq (App.get_gcs_output_videos o))).map Prod.fst = bq.map Prod.fst := by
    unfold App.applyBackfills
    exact keys_map_keyed
      (fun a b => (App.backfillTargets bq (App.get_gcs_output_videos o)).foldl
        (fun r u => if a = u.1 then App.backfillRow now u.2 r else r) b) bq
  have hk2 : (((App.get_gcs_input_images i).filter (fun p => !memKey bq p.1)).map
      (fun p => (p.1, App.mkInsertRow now p.1 p.2
        (lookupA (App.get_gcs_output_videos o) (pyStem p.1))))).map Prod.fst =
      ((App.get_gcs_input_images i).filter (fun p => !memKey bq p.1)).map Prod.fst :=
    keys_map_keyed
      (fun a b => App.mkInsertRow now a b (lookupA (App.get_gcs_output_videos o) (pyStem a)))
      ((App.get_gcs_input_images i).filter (fun p => !memKey bq p.1))
  refine ⟨?_, ?_, ?_⟩
  · rw [hk1]; exact h
  · rw [hk2]
    exact List.Nodup.sublist ((List.filter_sublist _).map Prod.fst) (input_images_keys_nodup i)
  · intro k hka hkb
    rw [hk1] at hka
    rw [hk2] at hkb
    obtain ⟨p, hpmem, hpk⟩ := List.mem_map.mp hkb
    have hpf := List.mem_filter.mp hpmem
    have hfm : memKey bq p.1 = false := by simpa using hpf.2
    rw [← memKey_iff_mem_keys] at hka
    rw [← hpk, hfm] at hka
    simp at hka

/-- Witness for the key-uniqueness half of the amended C1. -/
theorem c1_rows_keyed_by_image_witness :
    ([("a.webp", pendingRow)].map Prod.fst).Nodup ∧
      ((App.sync_gcs_to_bigquery "t1" [] [] [("a.webp", pendingRow)]).2.map Prod.fst).Nodup :=
  ⟨by decide, c1_rows_keyed_by_image.2 "t1" [] [] [("a.webp", pendingRow)] (by decide)⟩

/-- C3 counterexample: update_decision_in_bq on a job whose status is PENDING
(not the reviewable APPROVAL_PENDING state, the code name for COMPLETED) does
not fail and does modify the row: the decision is recorded and the status is
rewritten to MODERATED.  No InvalidState error exists anywhere in the code:
the UPDATE never reads the current status. -/
theorem c3_invalid_state_counterexample :
    (pendingRow.generation_status = "PENDING" ∧ pendingRow.decision = none) ∧
      (lookupA (App.update_decision_in_bq "t1" "mod@example.com" "100_01.webp" "approve" "p2"
          "n2" (some "vid/100_01.mp4")
          ⟨["vid/100_01.mp4"], [("100_01.webp", pendingRow)]⟩).rows "100_01.webp").map
        App.BQRow.decision = some (some "approve") ∧
      (lookupA (App.update_decision_in_bq "t1" "mod@example.com" "100_01.webp" "approve" "p2"
          "n2" (some "vid/100_01.mp4")
          ⟨["vid/100_01.mp4"], [("100_01.webp", pendingRow)]⟩).rows "100_01.webp").map
        App.BQRow.generation_status = some "MODERATED" := by
  refine ⟨by decide, by decide, by decide⟩

/-- C3 (amended): the decision processor has no status precondition: on a row
in any status — in particular one not in the reviewable APPROVAL_PENDING
state — the call succeeds and rewrites decision, status, prompt, notes,
moderator, timestamps and video_id exactly as for a reviewable job.  Only the
review-queue query (APPROVAL_PENDING with null decision) keeps the UI from
issuing such calls. -/
theorem c3_decide_ignores_status (now moderator_id image_id decision new_prompt new_notes : String)
    (src : Option String) (s : App.ModState) (row : App.BQRow)
    (h1 : lookupA s.rows image_id = some row)
    (h2 : row.generation_status ≠ "APPROVAL_PENDING") :
    lookupA (App.update_decision_in_bq now moderator_id image_id decision new_prompt new_notes
        src s).rows image_id =
      some (App.decidedRow now moderator_id decision new_prompt new_notes
        (App.decisionGenStatus decision src) (App.decisionVideoPath decision src) row) := by
  unfold App.update_decision_in_bq
  rw [lookupA_rowUpdate (App.decidedRow now moderator_id decision new_prompt new_notes
    (App.decisionGenStatus decision src) (App.decisionVideoPath decision src)) image_id s.rows
    image_id]
  rw [if_pos rfl, h1]
  rfl

/-- Witness for C3 at a concrete MODERATED row. -/
theorem c3_decide_ignores_status_witness :
    (lookupA [("b.webp", moderatedRow)] "b.webp" = some moderatedRow) ∧
      moderatedRow.generation_status ≠ "APPROVAL_PENDING" ∧
      lookupA (App.update_decision_in_bq "t2" "mod@example.com" "b.webp" "remove" "p" "n"
          (some "v.mp4") ⟨["v.mp4"], [("b.webp", moderatedRow)]⟩).rows "b.webp" =
        some (App.decidedRow "t2" "mod@example.com" "remove" "p" "n"
          (App.decisionGenStatus "remove" (some "v.mp4"))
          (App.decisionVideoPath "remove" (some "v.mp4")) moderatedRow) :=
  ⟨by decide, by decide,
    c3_decide_ignores_status "t2" "mod@example.com" "b.webp" "remove" "p" "n" (some "v.mp4")
      ⟨["v.mp4"], [("b.webp", moderatedRow)]⟩ moderatedRow (by decide) (by decide)⟩

/-- C4 counterexample: the worker claim transition on a concrete PENDING row
sets the status to GENERATING but leaves generation_attempts at 0: the SET
clause of update_job_status names only generation_status, video_id and
last_updated, and no code in the repository ever increments the counter, so
the claimed increment by exactly one is false. -/
theorem c4_attempts_counterexample :
    ((lookupA (Worker.claimPendingJob "t1" [("100_01.webp", pendingRow)] "100_01.webp")
        "100_01.webp").map App.BQRow.generation_status = some "GENERATING") ∧
      ¬((lookupA (Worker.claimPendingJob "t1" [("100_01.webp", pendingRow)] "100_01.webp")
        "100_01.webp").map App.BQRow.generation_attempts =
          some (pendingRow.generation_attempts + 1)) := by
  refine ⟨by decide, by decide⟩

/-- C4 (amended): the claim transition sets generation_status to GENERATING,
nulls video_id and refreshes last_updated; every other field of the row,
including the generation_attempts counter, is left unchanged. -/
theorem c4_claim_sets_generating_only (now : String) (bq : List (String × App.BQRow))
    (image_id : String) (row : App.BQRow) (h : lookupA bq image_id = some row) :
    lookupA (Worker.claimPendingJob now bq image_id) image_id =
      some { row with generation_status := "GENERATING", video_id := none, last_updated := now } := by
  unfold Worker.claimPendingJob Worker.update_job_status
  rw [lookupA_rowUpdate (fun r => { r with generation_status := "GENERATING", video_id := none, last_updated := now }) image_id bq image_id]
  rw [if_pos rfl, h]
  rfl

/-- Witness for C4 at a concrete PENDING row. -/
theorem c4_claim_sets_generating_only_witness :
    (lookupA [("c.webp", pendingRow)] "c.webp" = some pendingRow) ∧
      lookupA (Worker.claimPendingJob "t3" [("c.webp", pendingRow)] "c.webp") "c.webp" =
        some { pendingRow with generation_status := "GENERATING", video_id := none, last_updated := "t3" } :=
  ⟨by decide,
    c4_claim_sets_generating_only "t3" [("c.webp", pendingRow)] "c.webp" pendingRow (by decide)⟩

/-! ## Lemmas about the asset grouper -/

theorem groupLoop_filter (blobs : List String) : ∀ cur,
    TQ.groupLoop cur blobs = TQ.groupLoop cur (blobs.filter TQ.keepBlob) := by
  induction blobs with
  | nil => intro cur; rfl
  | cons n rest ih =>
    intro cur
    by_cases hk : TQ.keepBlob n = true
    · rw [List.filter_cons_of_pos hk]
      simp only [TQ.groupLoop, hk, if_true]
      cases cur with
      | none => exact ih _
      | some grp =>
        by_cases hg : TQ.tqGtin n = grp.gtin
        · simp only [if_pos hg]
          exact ih _
        · simp only [if_neg hg]
          rw [ih _]
    · have hk2 : TQ.keepBlob n = false := by simpa using hk
      rw [List.filter_cons_of_neg (by simp [hk2])]
      simp only [TQ.groupLoop, hk2]
      simp only [Bool.false_eq_true, if_false]
      exact ih cur

theorem groupLoop_some_eq (l : List String) : ∀ grp : TQ.AssetGroup,
    (∀ n ∈ l, TQ.keepBlob n = true) →
    TQ.groupLoop (some grp) l =
      { grp with
        assets := grp.assets ++ (l.takeWhile (fun m => TQ.tqGtin m = grp.gtin)).map TQ.tqUri } ::
        TQ.groupLoop none (l.dropWhile (fun m => TQ.tqGtin m = grp.gtin)) := by
  induction l with
  | nil =>
    intro grp _
    obtain ⟨g, c, a⟩ := grp
    simp [TQ.groupLoop]
  | cons n rest ih =>
    intro grp hall
    have hk : TQ.keepBlob n = true := hall n (List.mem_cons_self _ _)
    obtain ⟨g, c, a⟩ := grp
    by_cases hg : TQ.tqGtin n = g
    · rw [List.takeWhile_cons_of_pos (by simpa using hg),
        List.dropWhile_cons_of_pos (by simpa using hg)]
      simp only [TQ.groupLoop, hk, if_true, hg, if_pos]
      rw [ih ⟨g, c, a ++ [TQ.tqUri n]⟩ (fun m hm => hall m (List.mem_cons_of_mem _ hm))]
      simp [List.append_assoc]
    · rw [List.takeWhile_cons_of_neg (by simpa using hg),
        List.dropWhile_cons_of_neg (by simpa using hg)]
      simp [TQ.groupLoop, hk, hg]

theorem groupLoop_none_eq (N : Nat) : ∀ l : List String, l.length ≤ N →
    (∀ n ∈ l, TQ.keepBlob n = true) →
    TQ.groupLoop none l = (TQ.chunkByGtin l).map TQ.mkGroupOfChunk := by
  induction N with
  | zero =>
    intro l hl _
    have hnil : l = [] := List.length_eq_zero.mp (Nat.le_zero.mp hl)
    subst hnil
    simp [TQ.groupLoop, TQ.chunkByGtin]
  | succ N ih =>
    intro l hl hall
    cases l with
    | nil => simp [TQ.groupLoop, TQ.chunkByGtin]
    | cons n rest =>
      have hk : TQ.keepBlob n = true := hall n (List.mem_cons_self _ _)
      rw [TQ.chunkByGtin]
      simp only [List.map_cons]
      rw [show TQ.groupLoop none (n :: rest) =
          TQ.groupLoop (some ⟨TQ.tqGtin n, TQ.tqCat n, [TQ.tqUri n]⟩) rest by
        simp [TQ.groupLoop, hk]]
      rw [groupLoop_some_eq rest ⟨TQ.tqGtin n, TQ.tqCat n, [TQ.tqUri n]⟩
        (fun m hm => hall m (List.mem_cons_of_mem _ hm))]
      have hlen : rest.length ≤ N := Nat.succ_le_succ_iff.mp hl
      congr 1
      exact ih (rest.dropWhile (fun m => TQ.tqGtin m = TQ.tqGtin n))
        (le_trans (List.Sublist.length_le (List.dropWhile_sublist _)) hlen)
        (fun m hm => hall m (List.mem_cons_of_mem _ ((List.dropWhile_sublist _).subset hm)))

/-- The grouper equals the specification-side chunking of the surviving keys:
maximal contiguous runs of equal gtin, each emitting one group in order. -/
theorem grouper_eq_chunks (blobs : List String) :
    TQ.get_new_input_assets blobs =
      (TQ.chunkByGtin (blobs.filter TQ.keepBlob)).map TQ.mkGroupOfChunk := by
  unfold TQ.get_new_input_assets
  rw [groupLoop_filter blobs none]
  exact groupLoop_none_eq (blobs.filter TQ.keepBlob).length _ le_rfl
    (fun n hn => (List.mem_filter.mp hn).2)

theorem chunkByGtin_flatten (N : Nat) : ∀ l : List String, l.length ≤ N →
    (TQ.chunkByGtin l).flatten = l := by
  induction N with
  | zero =>
    intro l hl
    have hnil : l = [] := List.length_eq_zero.mp (Nat.le_zero.mp hl)
    subst hnil
    simp [TQ.chunkByGtin]
  | succ N ih =>
    intro l hl
    cases l with
    | nil => simp [TQ.chunkByGtin]
    | cons n rest =>
      rw [TQ.chunkByGtin]
      simp only [List.flatten_cons]
      rw [ih (rest.dropWhile (fun m => TQ.tqGtin m = TQ.tqGtin n))
        (le_trans (List.Sublist.length_le (List.dropWhile_sublist _))
          (Nat.succ_le_succ_iff.mp hl))]
      simp [List.takeWhile_append_dropWhile]

theorem chunkByGtin_gtin (N : Nat) : ∀ l : List String, l.length ≤ N →
    ∀ c ∈ TQ.chunkByGtin l, ∀ m ∈ c, TQ.tqGtin m = TQ.tqGtin (c.headD "") := by
  induction N with
  | zero =>
    intro l hl
    have hnil : l = [] := List.length_eq_zero.mp (Nat.le_zero.mp hl)
    subst hnil
    simp [TQ.chunkByGtin]
  | succ N ih =>
    intro l hl c hc m hm
    cases l with
    | nil => simp [TQ.chunkByGtin] at hc
    | cons n rest =>
      rw [TQ.chunkByGtin] at hc
      rcases List.mem_cons.mp hc with hhead | htail
      · subst hhead
        simp only [List.headD_cons]
        rcases List.mem_cons.mp hm with hmn | hmt
        · rw [hmn]
        · have := List.mem_takeWhile_imp hmt
          simpa using this
      · exact ih (rest.dropWhile (fun m => TQ.tqGtin m = TQ.tqGtin n))
          (le_trans (List.Sublist.length_le (List.dropWhile_sublist _))
            (Nat.succ_le_succ_iff.mp hl)) c htail m hm

theorem tqUri_inj : Function.Injective TQ.tqUri := by
  intro a b h
  unfold TQ.tqUri at h
  have hd := congrArg String.data h
  rw [String.data_append, String.data_append] at hd
  exact String.ext (List.append_cancel_left hd)

/-- The concatenation of the emitted asset lists is exactly the surviving
input keys, as uris, in order. -/
theorem grouper_assets_flatten (blobs : List String) :
    ((TQ.get_new_input_assets blobs).map TQ.AssetGroup.assets).flatten =
      (blobs.filter TQ.keepBlob).map TQ.tqUri := by
  rw [grouper_eq_chunks blobs, List.map_map]
  have hcomp : TQ.AssetGroup.assets ∘ TQ.mkGroupOfChunk = fun run => run.map TQ.tqUri := rfl
  rw [hcomp, ← List.map_flatten, chunkByGtin_flatten _ _ le_rfl]

/-- C6 counterexample: a key whose gtin token is not numeric
(clothes/foo_1.webp) is not dropped by the grouper: it is emitted in a group
under the raw token foo, so the concatenation of the groups is not the input
minus unparseable keys — nothing is ever dropped for being unparseable. -/
theorem c6_grouper_drops_unparseable_counterexample :
    TQ.get_new_input_assets ["clothes/foo_1.webp"] =
      [⟨"foo", "clothes",
        ["gs://galeria-veo3-input-assets-galeria-retail-api-dev/clothes/foo_1.webp"]⟩] ∧
      ((TQ.get_new_input_assets ["clothes/foo_1.webp"]).map TQ.AssetGroup.assets).flatten ≠ [] := by
  refine ⟨by decide, by decide⟩

/-- C6 (amended): dropping only directory markers and non-image keys, the
grouper equals the chunking of the surviving keys into maximal contiguous
equal-gtin runs (so two surviving keys share a group iff their gtins are
equal and they are contiguous); the concatenation of the emitted asset lists
is exactly the surviving input in order; re-running it on the same input
gives the same output because it is a pure function of the listing; and for a
duplicate-free listing the emitted asset lists are pairwise disjoint. -/
theorem c6_grouper_partition (blobs : List String) :
    (TQ.get_new_input_assets blobs =
        (TQ.chunkByGtin (blobs.filter TQ.keepBlob)).map TQ.mkGroupOfChunk)
      ∧ ((TQ.get_new_input_assets blobs).map TQ.AssetGroup.assets).flatten =
          (blobs.filter TQ.keepBlob).map TQ.tqUri
      ∧ (blobs.Nodup →
          (TQ.get_new_input_assets blobs).Pairwise
            (fun g h => ∀ a ∈ g.assets, a ∉ h.assets)) := by
  refine ⟨grouper_eq_chunks blobs, grouper_assets_flatten blobs, ?_⟩
  intro hnd
  have hflat : ((TQ.get_new_input_assets blobs).map TQ.AssetGroup.assets).flatten.Nodup := by
    rw [grouper_assets_flatten blobs]
    exact (hnd.filter _).map tqUri_inj
  have hpair := (List.nodup_flatten.mp hflat).2
  rw [List.pairwise_map] at hpair
  exact hpair.imp (fun hd a ha hb => hd ha hb)

/-- Witness for the disjointness half of C6 on a concrete duplicate-free
listing with two products. -/
theorem c6_grouper_partition_witness :
    (["a/1_x.webp", "a/2_x.webp"] : List String).Nodup ∧
      (TQ.get_new_input_assets ["a/1_x.webp", "a/2_x.webp"]).Pairwise
        (fun g h => ∀ a ∈ g.assets, a ∉ h.assets) :=
  ⟨by decide, (c6_grouper_partition ["a/1_x.webp", "a/2_x.webp"]).2.2 (by decide)⟩

/-- C9 counterexample: a listing with a key whose gtin token is non-numeric
(male_clothes/abc_01.webp) makes the grouper emit a group with gtin abc — the
key is not dropped and the emitted group does carry an unparseable product
id, contrary to the claimed fail-safe drop. -/
theorem c9_drop_unparseable_counterexample :
    TQ.get_new_input_assets ["male_clothes/abc_01.webp", "male_clothes/123_01.webp"] =
      [⟨"abc", "male_clothes",
        ["gs://galeria-veo3-input-assets-galeria-retail-api-dev/male_clothes/abc_01.webp"]⟩,
       ⟨"123", "male_clothes",
        ["gs://galeria-veo3-input-assets-galeria-retail-api-dev/male_clothes/123_01.webp"]⟩] ∧
      pyIsDigit "abc" = false := by
  refine ⟨by decide, by decide⟩

/-- C9 (amended): the grouper is total (never aborts: it is a function of the
listing) and never drops a surviving key, parseable or not: every surviving
key appears, as its uri, in an emitted group whose gtin is the raw first
underscore token of its filename. -/
theorem c9_grouper_keeps_unparseable (blobs : List String) (n : String)
    (h : n ∈ blobs.filter TQ.keepBlob) :
    ∃ g, g ∈ TQ.get_new_input_assets blobs ∧ g.gtin = TQ.tqGtin n ∧
      TQ.tqUri n ∈ g.assets := by
  have hmem : n ∈ (TQ.chunkByGtin (blobs.filter TQ.keepBlob)).flatten := by
    rw [chunkByGtin_flatten (blobs.filter TQ.keepBlob).length _ le_rfl]
    exact h
  obtain ⟨c, hc, hnc⟩ := List.mem_flatten.mp hmem
  refine ⟨TQ.mkGroupOfChunk c, ?_, ?_, ?_⟩
  · rw [grouper_eq_chunks]
    exact List.mem_map_of_mem _ hc
  · have hgt := chunkByGtin_gtin (blobs.filter TQ.keepBlob).length _ le_rfl c hc n hnc
    simpa [TQ.mkGroupOfChunk] using hgt.symm
  · exact List.mem_map_of_mem _ hnc

/-- Witness for C9 at a concrete surviving key with a non-numeric gtin. -/
theorem c9_grouper_keeps_unparseable_witness :
    ("x/foo_1.webp" ∈ (["x/foo_1.webp"] : List String).filter TQ.keepBlob) ∧
      ∃ g, g ∈ TQ.get_new_input_assets ["x/foo_1.webp"] ∧ g.gtin = TQ.tqGtin "x/foo_1.webp" ∧
        TQ.tqUri "x/foo_1.webp" ∈ g.assets :=
  ⟨by decide, c9_grouper_keeps_unparseable ["x/foo_1.webp"] "x/foo_1.webp" (by decide)⟩

/-! ## Lemmas about decision-time asset ordering in the moderator app -/

theorem char_toNat_inj {a b : Char} (h : a.toNat = b.toNat) : a = b := by
  have h2 := congrArg Char.ofNat h
  rwa [Char.ofNat_toNat, Char.ofNat_toNat] at h2

theorem lexLe_total : ∀ as bs : List Char, lexLe as bs = true ∨ lexLe bs as = true := by
  intro as
  induction as with
  | nil => intro bs; left; rfl
  | cons a arest ih =>
    intro bs
    cases bs with
    | nil => right; rfl
    | cons b brest =>
      by_cases hab : a = b
      · subst hab
        simp only [lexLe, if_pos rfl]
        exact ih brest
      · have hba : ¬ b = a := fun hc => hab hc.symm
        simp only [lexLe, if_neg hab, if_neg hba]
        have hne : a.toNat ≠ b.toNat := fun hc => hab (char_toNat_inj hc)
        rcases Nat.lt_or_ge a.toNat b.toNat with h | h
        · left; simpa using h
        · right
          have hlt : b.toNat < a.toNat := lt_of_le_of_ne h (fun hc => hne hc.symm)
          simpa using hlt

theorem lexLe_trans : ∀ as bs cs : List Char,
    lexLe as bs = true → lexLe bs cs = true → lexLe as cs = true := by
  intro as
  induction as with
  | nil => intro bs cs _ _; rfl
  | cons a arest ih =>
    intro bs cs h1 h2
    cases bs with
    | nil => simp [lexLe] at h1
    | cons b brest =>
      cases cs with
      | nil => simp [lexLe] at h2
      | cons c crest =>
        by_cases hab : a = b
        · subst hab
          simp only [lexLe, if_pos rfl] at h1
          by_cases hac : a = c
          · subst hac
            simp only [lexLe, if_pos rfl] at h2 ⊢
            exact ih brest crest h1 h2
          · simp only [lexLe, if_neg hac] at h2 ⊢
            exact h2
        · simp only [lexLe, if_neg hab] at h1
          have hlt1 : a.toNat < b.toNat := by simpa using h1
          by_cases hbc : b = c
          · subst hbc
            simp only [lexLe, if_neg hab]
            simpa using hlt1
          · simp only [lexLe, if_neg hbc] at h2
            have hlt2 : b.toNat < c.toNat := by simpa using h2
            have hltac : a.toNat < c.toNat := Nat.lt_trans hlt1 hlt2
            have hac : ¬ a = c := fun hc => absurd hltac (by rw [hc]; exact Nat.lt_irrefl _)
            simp only [lexLe, if_neg hac]
            simpa using hltac

theorem mem_insertByName (x z : VApp.GBlob) : ∀ l, z ∈ VApp.insertByName x l ↔ z = x ∨ z ∈ l := by
  intro l
  induction l with
  | nil => simp [VApp.insertByName]
  | cons y t ih =>
    by_cases h : VApp.nameLeB x y = true
    · simp only [VApp.insertByName, if_pos h, List.mem_cons]
    · simp only [VApp.insertByName, if_neg h, List.mem_cons, ih]
      tauto

theorem insertByName_sorted (x : VApp.GBlob) : ∀ l, l.Pairwise nameRel →
    (VApp.insertByName x l).Pairwise nameRel := by
  intro l
  induction l with
  | nil => intro _; simp [VApp.insertByName]
  | cons y t ih =>
    intro hp
    rcases List.pairwise_cons.mp hp with ⟨hy, ht⟩
    by_cases h : VApp.nameLeB x y = true
    · simp only [VApp.insertByName, if_pos h]
      apply List.pairwise_cons.mpr
      refine ⟨?_, hp⟩
      intro z hz
      rcases List.mem_cons.mp hz with rfl | hzt
      · exact h
      · exact lexLe_trans _ _ _ h (hy z hzt)
    · simp only [VApp.insertByName, if_neg h]
      apply List.pairwise_cons.mpr
      constructor
      · intro z hz
        rcases (mem_insertByName x z t).mp hz with hzx | hzt
        · rw [hzx]
          rcases lexLe_total x.name.data y.name.data with hxy | hyx
          · exact absurd hxy h
          · exact hyx
        · exact hy z hzt
      · exact ih ht

theorem sortByName_sorted (l : List VApp.GBlob) : (VApp.sortByName l).Pairwise nameRel := by
  unfold VApp.sortByName
  induction l with
  | nil => simp
  | cons x t ih =>
    simp only [List.foldr_cons]
    exact insertByName_sorted x _ ih

theorem insertByName_perm (x : VApp.GBlob) : ∀ l, (VApp.insertByName x l).Perm (x :: l) := by
  intro l
  induction l with
  | nil => exact List.Perm.refl _
  | cons y t ih =>
    by_cases h : VApp.nameLeB x y = true
    · simp only [VApp.insertByName, if_pos h]
      exact List.Perm.refl _
    · simp only [VApp.insertByName, if_neg h]
      exact (ih.cons y).trans (List.Perm.swap x y t)

theorem sortByName_perm (l : List VApp.GBlob) : (VApp.sortByName l).Perm l := by
  unfold VApp.sortByName
  induction l with
  | nil => exact List.Perm.refl _
  | cons x t ih =>
    simp only [List.foldr_cons]
    exact (insertByName_perm x _).trans (ih.cons x)

/-- C8 counterexample: with the processed tier listed (and recorded) in the
order front then back, get_gtin_image_blobs re-sorts the blobs by name, so
the decision-time processing order is back then front — the opposite of the
recorded order.  The ordering is re-derived from storage at decision time,
exactly what the claim rules out. -/
theorem c8_order_preserved_counterexample :
    VApp.approveImageOrder
        [⟨"200/02_front.webp", "image/webp"⟩, ⟨"200/01_back.webp", "image/webp"⟩] "200" =
      ["200/01_back.webp", "200/02_front.webp"] ∧
      VApp.approveImageOrder
          [⟨"200/02_front.webp", "image/webp"⟩, ⟨"200/01_back.webp", "image/webp"⟩] "200" ≠
        ([⟨"200/02_front.webp", "image/webp"⟩, ⟨"200/01_back.webp", "image/webp"⟩] :
          List VApp.GBlob).map VApp.GBlob.name := by
  refine ⟨by decide, by decide⟩

/-- C8 (amended): the moderator app derives the reference-asset order at
decision time by re-listing the processed bucket and sorting blob names
alphabetically: get_gtin_image_blobs always returns a name-sorted permutation
of the gtin-filtered listing, relying on the filename convention rather than
on any recorded reference_uris order. -/
theorem c8_order_rederived_by_sort (processed : List VApp.GBlob) (gtin : String) :
    (VApp.get_gtin_image_blobs processed gtin).Pairwise nameRel ∧
      (VApp.get_gtin_image_blobs processed gtin).Perm
        (processed.filter (VApp.imageBlobFilter gtin)) := by
  unfold VApp.get_gtin_image_blobs
  exact ⟨sortByName_sorted _, sortByName_perm _⟩

/-! ## Lemmas about reject in the video-moderator-app storage utilities -/

theorem moveRefs_mem (category : String) : ∀ us store (d : String), d ∈ store →
    (∀ u ∈ us, u ≠ d) → d ∈ SU.moveRefsToInput category store us := by
  intro us
  induction us with
  | nil => intro store d hd _; exact hd
  | cons u rest ih =>
    intro store d hd hne
    simp only [SU.moveRefsToInput]
    apply ih
    · have hdu : u ≠ d := hne u (List.mem_cons_self _ _)
      rw [List.mem_erase_of_ne (fun hc => hdu hc.symm)]
      exact List.mem_append_left _ hd
    · exact fun v hv => hne v (List.mem_cons_of_mem _ hv)

theorem moveRefs_dest_mem (category : String) : ∀ us store (u : String), u ∈ us →
    (∀ v ∈ us, SU.destInputUri category u ≠ v) →
    SU.destInputUri category u ∈ SU.moveRefsToInput category store us := by
  intro us
  induction us with
  | nil => intro store u hu _; simp at hu
  | cons w rest ih =>
    intro store u hu hnd
    simp only [SU.moveRefsToInput]
    rcases List.mem_cons.mp hu with huw | hur
    · subst huw
      apply moveRefs_mem
      · rw [List.mem_erase_of_ne (hnd u (List.mem_cons_self _ _))]
        exact List.mem_append_right _ (List.mem_singleton.mpr rfl)
      · exact fun v hv => (hnd v (List.mem_cons_of_mem _ hv)).symm
    · exact ih _ u hur (fun v hv => hnd v (List.mem_cons_of_mem _ hv))

theorem moveRefs_count_le (category : String) (x : String) : ∀ us store,
    (∀ u ∈ us, SU.destInputUri category u ≠ x) →
    (SU.moveRefsToInput category store us).count x ≤ store.count x := by
  intro us
  induction us with
  | nil => intro store _; exact le_rfl
  | cons u rest ih =>
    intro store hnd
    simp only [SU.moveRefsToInput]
    have h1 : (SU.moveRefsToInput category ((store ++ [SU.destInputUri category u]).erase u)
        rest).count x ≤ ((store ++ [SU.destInputUri category u]).erase u).count x :=
      ih _ (fun v hv => hnd v (List.mem_cons_of_mem _ hv))
    have h2 : ((store ++ [SU.destInputUri category u]).erase u).count x ≤
        (store ++ [SU.destInputUri category u]).count x :=
      (List.erase_sublist _ _).count_le x
    have h3 : (store ++ [SU.destInputUri category u]).count x = store.count x := by
      rw [List.count_append]
      have hz : ([SU.destInputUri category u] : List String).count x = 0 := by
        rw [List.count_eq_zero]
        intro hc
        exact hnd u (List.mem_cons_self _ _) (List.mem_singleton.mp hc).symm
      rw [hz]
      omega
    rw [← h3]
    exact le_trans h1 h2

/-- C7 counterexample: on a concrete COMPLETED job of product 200 held in the
processed bucket, reject copies the reference image back to the input tier
and deletes the video, but the only ledger effect is one appended event with
status VIDEO_REJECTED: no row is set to MODERATED, no decision field exists,
and no video_uri field is cleared — the ledger of this app is an append-only
event log. -/
theorem c7_reject_ledger_counterexample :
    ((SU.reject_video "t0" "200" none "mod@example.com"
        "gs://galeria-veo3-processed-assets-galeria-retail-api-dev/200/vid.mp4" "clothes"
        ["gs://galeria-veo3-processed-assets-galeria-retail-api-dev/200/200_01.webp"]
        ⟨["gs://galeria-veo3-processed-assets-galeria-retail-api-dev/200/200_01.webp",
          "gs://galeria-veo3-processed-assets-galeria-retail-api-dev/200/vid.mp4"],
         []⟩).events.map SU.VLogRow.status = ["VIDEO_REJECTED"]) ∧
      ("VIDEO_REJECTED" ≠ "MODERATED") ∧
      ((SU.reject_video "t0" "200" none "mod@example.com"
        "gs://galeria-veo3-processed-assets-galeria-retail-api-dev/200/vid.mp4" "clothes"
        ["gs://galeria-veo3-processed-assets-galeria-retail-api-dev/200/200_01.webp"]
        ⟨["gs://galeria-veo3-processed-assets-galeria-retail-api-dev/200/200_01.webp",
          "gs://galeria-veo3-processed-assets-galeria-retail-api-dev/200/vid.mp4"],
         []⟩).store =
        ["gs://galeria-veo3-input-assets-galeria-retail-api-dev/clothes/200_01.webp"]) := by
  refine ⟨by decide, by decide, by decide⟩

/-- C7 (amended): reject copies every reference asset back to the input tier
under a category-scoped name and deletes the generated video, but the ledger
effect is a single appended VIDEO_REJECTED audit event carrying the notes,
category, reference uris and moderator — no existing row is mutated, so no
status is set to MODERATED, no decision field is written and no video_uri is
cleared. -/
theorem c7_reject_moves_and_logs (now gtin : String) (notes : Option String)
    (moderator video_gcs_uri category : String) (refUris : List String) (s : SU.SUState) :
    ((SU.reject_video now gtin notes moderator video_gcs_uri category refUris s).events =
        s.events ++ [⟨gtin, "VIDEO_REJECTED", notes, category,
          SU.fix_reference_image_uris gtin refUris, moderator, now⟩])
      ∧ (∀ u ∈ SU.fix_reference_image_uris gtin refUris,
          (∀ v ∈ SU.fix_reference_image_uris gtin refUris, SU.destInputUri category u ≠ v) →
          SU.destInputUri category u ≠ video_gcs_uri →
          SU.destInputUri category u ∈
            (SU.reject_video now gtin notes moderator video_gcs_uri category refUris s).store)
      ∧ (s.store.count video_gcs_uri ≤ 1 →
          (∀ u ∈ SU.fix_reference_image_uris gtin refUris,
            SU.destInputUri category u ≠ video_gcs_uri) →
          video_gcs_uri ∉
            (SU.reject_video now gtin notes moderator video_gcs_uri category refUris s).store) := by
  refine ⟨rfl, ?_, ?_⟩
  · intro u hu hnd hnv
    unfold SU.reject_video
    rw [List.mem_erase_of_ne hnv]
    exact moveRefs_dest_mem category _ s.store u hu hnd
  · intro hcount hnd
    unfold SU.reject_video
    have h1 : (SU.moveRefsToInput category s.store
        (SU.fix_reference_image_uris gtin refUris)).count video_gcs_uri ≤ 1 :=
      le_trans (moveRefs_count_le category video_gcs_uri _ s.store hnd) hcount
    have h2 : ((SU.moveRefsToInput category s.store
        (SU.fix_reference_image_uris gtin refUris)).erase video_gcs_uri).count
          video_gcs_uri = 0 := by
      rw [List.count_erase_self]
      omega
    rw [List.count_eq_zero] at h2
    exact h2

/-- Witness for C7 at a concrete state (distinct source, destination and
video uris). -/
theorem c7_reject_moves_and_logs_witness :
    (∀ v ∈ SU.fix_reference_image_uris "300"
        ["gs://galeria-veo3-processed-assets-galeria-retail-api-dev/300/300_01.webp"],
      SU.destInputUri "shoes"
        "gs://galeria-veo3-processed-assets-galeria-retail-api-dev/300/300_01.webp" ≠ v) ∧
    ("gs://galeria-veo3-processed-assets-galeria-retail-api-dev/300/300_01.webp" ∈
      SU.fix_reference_image_uris "300"
        ["gs://galeria-veo3-processed-assets-galeria-retail-api-dev/300/300_01.webp"]) ∧
    SU.destInputUri "shoes"
        "gs://galeria-veo3-processed-assets-galeria-retail-api-dev/300/300_01.webp" ∈
      (SU.reject_video "t5" "300" none "mod@example.com"
        "gs://galeria-veo3-processed-assets-galeria-retail-api-dev/300/v.mp4" "shoes"
        ["gs://galeria-veo3-processed-assets-galeria-retail-api-dev/300/300_01.webp"]
        ⟨["gs://galeria-veo3-processed-assets-galeria-retail-api-dev/300/300_01.webp",
          "gs://galeria-veo3-processed-assets-galeria-retail-api-dev/300/v.mp4"], []⟩).store :=
  ⟨by decide, by decide,
    (c7_reject_moves_and_logs "t5" "300" none "mod@example.com"
      "gs://galeria-veo3-processed-assets-galeria-retail-api-dev/300/v.mp4" "shoes"
      ["gs://galeria-veo3-processed-assets-galeria-retail-api-dev/300/300_01.webp"]
      ⟨["gs://galeria-veo3-processed-assets-galeria-retail-api-dev/300/300_01.webp",
        "gs://galeria-veo3-processed-assets-galeria-retail-api-dev/300/v.mp4"], []⟩).2.1
      "gs://galeria-veo3-processed-assets-galeria-retail-api-dev/300/300_01.webp"
      (by decide) (by decide) (by decide)⟩

/-! ## Characterization of gtin parsing in src/app.py -/

theorem gtin_token_iff (st2 t : String) :
    (if pyIsDigit (takeUntil '_' st2) = true then some (takeUntil '_' st2) else none) = some t ↔
      (t.data = st2.data.takeWhile (· ≠ '_') ∧ t.data ≠ [] ∧ ∀ c ∈ t.data, c.isDigit = true) := by
  constructor
  · intro h
    by_cases hd : pyIsDigit (takeUntil '_' st2) = true
    · rw [if_pos hd] at h
      have ht : t = takeUntil '_' st2 := by
        injection h with hh
        exact hh.symm
      subst ht
      unfold pyIsDigit at hd
      rw [Bool.and_eq_true] at hd
      obtain ⟨hne, hall⟩ := hd
      refine ⟨rfl, ?_, ?_⟩
      · intro hc
        rw [hc] at hne
        simp at hne
      · intro c hc
        exact List.all_eq_true.mp hall c hc
    · rw [if_neg hd] at h
      exact absurd h (by simp)
  · rintro ⟨h1, h2, h3⟩
    have ht : t = takeUntil '_' st2 := String.ext h1
    have hd : pyIsDigit (takeUntil '_' st2) = true := by
      rw [← ht]
      unfold pyIsDigit
      rw [Bool.and_eq_true]
      refine ⟨?_, ?_⟩
      · cases hcase : t.data with
        | nil => exact absurd hcase h2
        | cons c cs => simp [hcase]
      · exact List.all_eq_true.mpr h3
    rw [if_pos hd, ht]

/-- C10: get_gtin_from_path is total (the guarded IndexError can never fire,
so it never raises) and, after stripping a leading generated_ marker from the
pathlib stem when present, it returns exactly the characters before the
first underscore of that stem if and only if that token is nonempty and
consists solely of ASCII digits; in every other case it returns none. -/
theorem c10_get_gtin_from_path_characterization (image_name t : String) :
    App.get_gtin_from_path image_name = some t ↔
      (t.data = (if strStartsWith (pyStem image_name) "generated_" = true
            then strDrop (pyStem image_name) 10
            else pyStem image_name).data.takeWhile (· ≠ '_')
        ∧ t.data ≠ [] ∧ ∀ c ∈ t.data, c.isDigit = true) := by
  have hco : App.get_gtin_from_path image_name =
      (if pyIsDigit (takeUntil '_' (if strStartsWith (pyStem image_name) "generated_" = true
            then strDrop (pyStem image_name) 10 else pyStem image_name)) = true
        then some (takeUntil '_' (if strStartsWith (pyStem image_name) "generated_" = true
            then strDrop (pyStem image_name) 10 else pyStem image_name))
        else none) := by
    simp only [App.get_gtin_from_path]
    by_cases hc : strStartsWith (pyStem image_name) "generated_" = true <;> simp [hc]
  rw [hco]
  exact gtin_token_iff _ t
